import Mathlib

/-!
Verification of the MelodyAI browser melody composer.

The development shallowly embeds the parts of the code that the claims
concern:

* the note data model and staff constants (constants.ts),
* the pointer-gesture note placement state machine of the staff renderer
  (components/Staff.tsx): pointerdown, the 2500 ms placement timer,
  pointerup / pointercancel, with the map of active pointers and the side
  effects (preview sound, ripple, timers, onAddNote) made explicit,
* AudioService.playSequence (scheduling of notes and of the completion
  callback),
* GeminiService.completeMelody post-processing of the AI response,
* the App-level handlers handleAddNote, handleUndo and handleGenerate.

JS numbers are embedded as rationals, JS Math.round as the function
mapping q to the floor of q + 1/2, which agrees with JS round-half-up
semantics at every rational.
-/

/-- The note data model (types.ts).  The optional isAiGenerated field is
embedded as a Bool, with false standing for undefined. -/
structure Note where
  id : String
  pitch : String
  startTime : ℚ
  duration : ℚ
  isAiGenerated : Bool
deriving DecidableEq

/-- PITCH_ORDER of constants.ts: the 22 selectable pitches from A5 down
to C4. -/
def PITCH_ORDER : List String :=
  ["A5", "G#5", "G5", "F#5", "F5", "E5", "D#5", "D5", "C#5", "C5",
   "B4", "A#4", "A4", "G#4", "G4", "F#4", "F4", "E4", "D#4", "D4", "C#4", "C4"]

/-- CONFIG.stepWidth of constants.ts: each 16th-note step is 30 px wide. -/
def stepWidth : ℚ := 30

/-- CONFIG.lineHeight of constants.ts. -/
def lineHeight : ℚ := 12

/-- HOLD_DURATION of Staff.tsx, in milliseconds. -/
def HOLD_DURATION : Nat := 2500

/-- EXCLUSION_RADIUS of Staff.tsx, in pixels. -/
def EXCLUSION_RADIUS : ℚ := 20

/-- JS Math.round: round half toward positive infinity, which equals the
floor of q + 1/2 at every rational. -/
def jsRound (q : ℚ) : ℤ := ⌊q + 1 / 2⌋

/-- The d3 point scale of Staff.tsx, built with domain PITCH_ORDER, range
0 to (22 - 1) * (lineHeight / 2) = 126 and padding 0.5.  d3 computes
step = 126 / (n - 1 + 2 * padding) = 126 / 22 = 63 / 11 and places point i
at step * (1 / 2 + i).  This constant is the value of yScale.step(). -/
def yStep : ℚ := 63 / 11

/-- Value of yScale at a pitch: the y position of the pitch when the pitch
is in PITCH_ORDER, and none otherwise (d3 point scales return undefined on
unknown keys, and the code guards that case). -/
def yScaleQ (pitch : String) : Option ℚ :=
  (PITCH_ORDER.indexOf? pitch).map (fun i => yStep * (1 / 2 + (i : ℚ)))

/-- The clamped pitch index of the pointerdown handler of Staff.tsx:
Math.max(0, Math.min(domain.length - 1, Math.round(my / yScale.step()))). -/
def pitchIndexFromY (my : ℚ) : Nat :=
  (max 0 (min ((PITCH_ORDER.length : ℤ) - 1) (jsRound (my / yStep)))).toNat

/-- The pitch selected by the pointerdown handler: domain[clampedIndex].
The default value stands for the undefined that the code tests with the
falsy check on pitch; the development proves this default is never
produced. -/
def quantPitch (my : ℚ) : String :=
  PITCH_ORDER.getD (pitchIndexFromY my) ""

/-- The step index of the pointerdown handler:
Math.round(xScale.invert(mx)).  xScale is linear with domain 0..maxTime
and range 0..maxTime * stepWidth, so its inverse divides by stepWidth
independently of maxTime (maxTime is at least 64, hence nonzero). -/
def quantStep (mx : ℚ) : ℤ := jsRound (mx / stepWidth)

/-- The proximity test of the pointerdown handler of Staff.tsx: some
rendered note lies within EXCLUSION_RADIUS of the press.  The code
compares Math.sqrt(dx * dx + dy * dy) < 20; squaring both nonnegative
sides gives the equivalent comparison used here, which keeps the
definition computable. -/
def isNearExistingNote (notes : List Note) (mx my : ℚ) : Bool :=
  notes.any fun note =>
    match yScaleQ note.pitch with
    | none => false
    | some ny =>
        decide ((mx - stepWidth * note.startTime) ^ 2 + (my - ny) ^ 2
                  < EXCLUSION_RADIUS ^ 2)

/-- Per-pointer record stored in the activePointers map of Staff.tsx.  The
setTimeout and setInterval handles are embedded as the scheduled firing
time of the placement timer together with liveness flags. -/
structure PointerEntry where
  pitch : String
  stepIndex : ℤ
  fireAt : Nat
  timerActive : Bool
  rippleActive : Bool
  hasPlaced : Bool
deriving DecidableEq

/-- Observable side effects of the staff gesture handlers: the audio
preview calls, the ripple group and interval, the placement timer, and
the onAddNote callback. -/
inductive Effect where
  | startNote (pitch : String)
  | stopNote (pitch : String)
  | startRipple (pid : Nat)
  | clearRipple (pid : Nat)
  | setTimer (pid : Nat) (fireAt : Nat)
  | clearTimer (pid : Nat)
  | addNote (n : Note)
deriving DecidableEq

/-- The mutable state of the staff component: the activePointers map,
embedded as an association list keyed by pointerId in insertion order. -/
structure StaffState where
  pointers : List (Nat × PointerEntry)
deriving DecidableEq

/-- Map.get on activePointers. -/
def lookupPid (pid : Nat) : List (Nat × PointerEntry) → Option PointerEntry
  | [] => none
  | (k, v) :: rest => if k = pid then some v else lookupPid pid rest

/-- Map.set on activePointers: replace in place when the key is present,
append otherwise. -/
def setPid (pid : Nat) (e : PointerEntry) :
    List (Nat × PointerEntry) → List (Nat × PointerEntry)
  | [] => [(pid, e)]
  | (k, v) :: rest =>
      if k = pid then (pid, e) :: rest else (k, v) :: setPid pid e rest

/-- Map.delete on activePointers.  A JS Map holds each key at most once,
so removing every entry with the key agrees with Map.delete on every
reachable state. -/
def erasePid (pid : Nat) :
    List (Nat × PointerEntry) → List (Nat × PointerEntry)
  | [] => []
  | (k, v) :: rest =>
      if k = pid then erasePid pid rest else (k, v) :: erasePid pid rest

/-- The id string built by the placement timer callback:
user-(Date.now())-(pointerId). -/
def mkUserId (t pid : Nat) : String :=
  "user-" ++ toString t ++ "-" ++ toString pid

/-- The pointerdown handler of the staff hit area (Staff.tsx).  Argument t
is the event timestamp in ms; it fixes the firing time of the placement
timer at t + HOLD_DURATION.  When the press is within EXCLUSION_RADIUS of
a rendered note the handler returns before any effect.  The second branch
mirrors the falsy guard on the selected pitch. -/
def onPointerDown (notes : List Note) (t : Nat) (pid : Nat) (mx my : ℚ)
    (s : StaffState) : StaffState × List Effect :=
  if isNearExistingNote notes mx my then (s, [])
  else
    let pitch := quantPitch my
    if pitch = "" then (s, [])
    else
      ({ pointers :=
          setPid pid
            ⟨pitch, quantStep mx, t + HOLD_DURATION, true, true, false⟩
            s.pointers },
       [Effect.startNote pitch, Effect.startRipple pid,
        Effect.setTimer pid (t + HOLD_DURATION)])

/-- The placement timer callback of Staff.tsx, run when the setTimeout of
a pointerdown fires at time t: when the pointer is still active and has
not placed yet, it marks hasPlaced, clears the ripple interval, stops the
preview note and calls onAddNote with the quantized note of duration 4. -/
def onTimerFire (t : Nat) (pid : Nat) (s : StaffState) :
    StaffState × List Effect :=
  match lookupPid pid s.pointers with
  | none => (s, [])
  | some data =>
      if data.hasPlaced then (s, [])
      else
        let n : Note :=
          ⟨mkUserId t pid, data.pitch, (data.stepIndex : ℚ), 4, false⟩
        ({ pointers :=
            setPid pid { data with timerActive := false,
                                   rippleActive := false,
                                   hasPlaced := true } s.pointers },
         [Effect.clearRipple pid, Effect.stopNote data.pitch,
          Effect.addNote n])

/-- The shared pointerup / pointercancel handler of Staff.tsx: for the
event pointer only, it clears the placement timer and the ripple
interval, stops the preview note and deletes the map entry. -/
def onPointerUp (pid : Nat) (s : StaffState) : StaffState × List Effect :=
  match lookupPid pid s.pointers with
  | none => (s, [])
  | some data =>
      ({ pointers := erasePid pid s.pointers },
       [Effect.clearTimer pid, Effect.clearRipple pid,
        Effect.stopNote data.pitch])

/-- Events delivered to the staff component by the browser event loop: the
three pointer events the code subscribes to, and the firing of a pending
placement timer. -/
inductive StaffEvent where
  | down (pid : Nat) (mx my : ℚ)
  | up (pid : Nat)
  | cancel (pid : Nat)
  | fire (pid : Nat)
deriving DecidableEq

/-- The pointer a staff event belongs to. -/
def eventPid : StaffEvent → Nat
  | StaffEvent.down pid _ _ => pid
  | StaffEvent.up pid => pid
  | StaffEvent.cancel pid => pid
  | StaffEvent.fire pid => pid

/-- Dispatch of one timestamped event, exactly as the handlers are wired
in Staff.tsx (pointerup and pointercancel share one handler). -/
def stepEvent (notes : List Note) (s : StaffState) :
    Nat × StaffEvent → StaffState × List Effect
  | (t, StaffEvent.down pid mx my) => onPointerDown notes t pid mx my s
  | (_, StaffEvent.up pid) => onPointerUp pid s
  | (_, StaffEvent.cancel pid) => onPointerUp pid s
  | (t, StaffEvent.fire pid) => onTimerFire t pid s

/-- Run of a time-ordered event list, accumulating the emitted effects. -/
def runEvents (notes : List Note) (s : StaffState) :
    List (Nat × StaffEvent) → StaffState × List Effect
  | [] => (s, [])
  | e :: rest =>
      let p := stepEvent notes s e
      let q := runEvents notes p.1 rest
      (q.1, p.2 ++ q.2)

/-- A note scheduled on the synth by AudioService.playSequence: pitch,
absolute start time in seconds and length in seconds. -/
structure Sched where
  pitch : String
  time : ℚ
  dur : ℚ
deriving DecidableEq

/-- Stable insertion of a note into a list already sorted by startTime,
after every element whose startTime is not greater. -/
def insertByStart (n : Note) : List Note → List Note
  | [] => [n]
  | m :: ms =>
      if m.startTime ≤ n.startTime then m :: insertByStart n ms
      else n :: m :: ms

/-- The sort of audioService.ts: a stable sort of the notes by ascending
startTime, the embedding of Array.prototype.sort with the comparator on
startTime (stable per the ECMAScript specification). -/
def sortByStart (notes : List Note) : List Note :=
  notes.foldl (fun acc n => insertByStart n acc) []

/-- AudioService.playSequence (audioService.ts).  Parameter now is the
value of Tone.now() and s16 the value of Tone.Time applied to a 16th note
in seconds; the synth is taken as loaded.  The result is the list of
notes scheduled by triggerAttackRelease, each at absolute time
now + 0.5 + startTime * s16 with length duration * s16, together with the
transport time at which the completion callback is scheduled, none when
the list is empty and the callback runs immediately.  The callback time
is computed from the LAST element of the startTime-sorted copy:
(lastNote.startTime + lastNote.duration) * s16 + 0.5 + 0.5.  The
transport is started at now, so transport time x corresponds to absolute
time now + x. -/
def playSequence (notes : List Note) (now s16 : ℚ) :
    List Sched × Option ℚ :=
  match (sortByStart notes).getLast? with
  | none => ([], none)
  | some lastNote =>
      (notes.map fun n =>
        ⟨n.pitch, now + 1 / 2 + n.startTime * s16, n.duration * s16⟩,
       some ((lastNote.startTime + lastNote.duration) * s16 + 1 / 2 + 1 / 2))

/-- A raw item of the parsed Gemini JSON response (geminiService.ts). -/
structure RawNote where
  pitch : String
  startTime : ℚ
  duration : ℚ
deriving DecidableEq

/-- The isOriginalMatch test of GeminiService.completeMelody: some input
note has the same pitch and a startTime within strictly less than 1 step. -/
def isOriginalMatch (currentNotes : List Note) (n : RawNote) : Bool :=
  currentNotes.any fun cn =>
    cn.pitch == n.pitch && decide (|cn.startTime - n.startTime| < 1)

/-- The id string built for response item index at call timestamp d:
ai-(index)-(Date.now()). -/
def mkAiId (index d : Nat) : String :=
  "ai-" ++ toString index ++ "-" ++ toString d

/-- The post-processing of GeminiService.completeMelody over the parsed
response rawNotes: one output note per response item in order, with a
newly built id from the item index and the call timestamp d, the fields
copied, and isAiGenerated set exactly when isOriginalMatch fails.  The
network call, prompting and JSON parsing stay outside the model; a parse
or transport failure propagates as a thrown error and produces no list. -/
def completeMelody (currentNotes : List Note) (rawNotes : List RawNote)
    (d : Nat) : List Note :=
  rawNotes.enum.map fun p =>
    ⟨mkAiId p.1 d, p.2.pitch, p.2.startTime, p.2.duration,
     !isOriginalMatch currentNotes p.2⟩

/-- App-level UI state (the useState hooks of App.tsx that the claims
concern): the notes list, the status message, whether playback is in the
PLAYING state, and the isGenerating flag. -/
structure AppState where
  notes : List Note
  message : String
  playing : Bool
  isGenerating : Bool
deriving DecidableEq

/-- handleAddNote of App.tsx: append the note to the list. -/
def handleAddNote (prev : List Note) (n : Note) : List Note := prev ++ [n]

/-- handleUndo of App.tsx: copy the list and pop its last element. -/
def handleUndo (prev : List Note) : List Note := prev.dropLast

/-- handleGenerate of App.tsx, as the state transformation it performs by
the time the async handler completes.  The AI call outcome is the r
argument: ok newNotes when completeMelody resolves, error when it throws.
The Bool of the result records whether completeMelody was invoked.  On
fewer than 3 notes only the message changes; while already generating
nothing changes; on error the notes are untouched, playback is set to
STOPPED and the finally clause resets isGenerating; on success the notes
are replaced and the message set, with playback still PLAYING from the
preview started before the call. -/
def handleGenerate (s : AppState) (r : Except Unit (List Note)) :
    AppState × Bool :=
  if s.notes.length < 3 then
    ({ s with message := "Please place at least 3 notes." }, false)
  else if s.isGenerating then (s, false)
  else
    match r with
    | Except.ok newNotes =>
        ({ notes := newNotes, message := "Composition complete!",
           playing := true, isGenerating := false }, true)
    | Except.error _ =>
        ({ s with message := "Error generating music.",
                  playing := false, isGenerating := false }, true)

/-- Decimal decoding of a character list; a left inverse of the digit
string produced by Nat.repr, used to reason about the freshly built
identifier strings. -/
def decodeDigits (l : List Char) : Nat :=
  l.foldl (fun acc c => acc * 10 + (c.toNat - 48)) 0

/-! Helper lemmas about the quantization of a press position. -/

theorem pitchIndexFromY_lt (my : ℚ) :
    pitchIndexFromY my < PITCH_ORDER.length := by
  have hlen : PITCH_ORDER.length = 22 := by decide
  rw [hlen]
  unfold pitchIndexFromY
  rw [hlen]
  have h1 : min ((22 : ℤ) - 1) (jsRound (my / yStep)) ≤ 21 := by
    exact le_trans (min_le_left _ _) (by norm_num)
  have h2 : max 0 (min ((22 : ℤ) - 1) (jsRound (my / yStep))) ≤ 21 :=
    max_le (by norm_num) h1
  have h3 := Int.toNat_le_toNat h2
  omega

theorem quantPitch_mem (my : ℚ) : quantPitch my ∈ PITCH_ORDER := by
  unfold quantPitch
  rw [List.getD_eq_getElem PITCH_ORDER "" (pitchIndexFromY_lt my)]
  exact List.getElem_mem _

theorem pitch_order_all_nonempty : ∀ p ∈ PITCH_ORDER, p ≠ "" := by decide

theorem quantPitch_ne_empty (my : ℚ) : quantPitch my ≠ "" :=
  pitch_order_all_nonempty _ (quantPitch_mem my)

/-! Helper lemmas about the association-list model of the pointer map. -/

theorem lookupPid_setPid_self (pid : Nat) (e : PointerEntry)
    (l : List (Nat × PointerEntry)) :
    lookupPid pid (setPid pid e l) = some e := by
  induction l with
  | nil => simp [setPid, lookupPid]
  | cons kv rest ih =>
      obtain ⟨k, v⟩ := kv
      by_cases h : k = pid <;> simp [setPid, lookupPid, h, ih]

theorem lookupPid_setPid_ne (pid q : Nat) (e : PointerEntry)
    (l : List (Nat × PointerEntry)) (h : q ≠ pid) :
    lookupPid q (setPid pid e l) = lookupPid q l := by
  induction l with
  | nil => simp [setPid, lookupPid, Ne.symm h]
  | cons kv rest ih =>
      obtain ⟨k, v⟩ := kv
      by_cases hk : k = pid
      · subst hk
        simp [setPid, lookupPid, Ne.symm h]
      · simp [setPid, lookupPid, hk, ih]

theorem lookupPid_erasePid_self (pid : Nat)
    (l : List (Nat × PointerEntry)) :
    lookupPid pid (erasePid pid l) = none := by
  induction l with
  | nil => simp [erasePid, lookupPid]
  | cons kv rest ih =>
      obtain ⟨k, v⟩ := kv
      by_cases h : k = pid <;> simp [erasePid, lookupPid, h, ih]

theorem lookupPid_erasePid_ne (pid q : Nat)
    (l : List (Nat × PointerEntry)) (h : q ≠ pid) :
    lookupPid q (erasePid pid l) = lookupPid q l := by
  induction l with
  | nil => simp [erasePid, lookupPid]
  | cons kv rest ih =>
      obtain ⟨k, v⟩ := kv
      by_cases hk : k = pid
      · subst hk
        simp [erasePid, lookupPid, Ne.symm h, ih]
      · simp [erasePid, lookupPid, hk, ih]

/-! Frame lemmas: an event of one pointer leaves the map entry of every
other pointer untouched. -/

theorem stepEvent_lookup_ne (notes : List Note) (s : StaffState)
    (e : Nat × StaffEvent) (q : Nat) (h : eventPid e.2 ≠ q) :
    lookupPid q (stepEvent notes s e).1.pointers = lookupPid q s.pointers := by
  obtain ⟨t, ev⟩ := e
  cases ev with
  | down pid mx my =>
      simp only [eventPid] at h
      unfold stepEvent onPointerDown
      by_cases hn : isNearExistingNote notes mx my
      · simp [hn]
      · by_cases hp : quantPitch my = "" <;>
          simp [hn, hp, lookupPid_setPid_ne pid q _ _ (Ne.symm h)]
  | up pid =>
      simp only [eventPid] at h
      unfold stepEvent onPointerUp
      cases hl : lookupPid pid s.pointers <;>
        simp [hl, lookupPid_erasePid_ne pid q _ (Ne.symm h)]
  | cancel pid =>
      simp only [eventPid] at h
      unfold stepEvent onPointerUp
      cases hl : lookupPid pid s.pointers <;>
        simp [hl, lookupPid_erasePid_ne pid q _ (Ne.symm h)]
  | fire pid =>
      simp only [eventPid] at h
      unfold stepEvent onTimerFire
      cases hl : lookupPid pid s.pointers with
      | none => simp [hl]
      | some data =>
          by_cases hp : data.hasPlaced <;>
            simp [hl, hp, lookupPid_setPid_ne pid q _ _ (Ne.symm h)]

theorem runEvents_lookup_ne (notes : List Note) (q : Nat)
    (l : List (Nat × StaffEvent)) (s : StaffState)
    (h : ∀ e ∈ l, eventPid e.2 ≠ q) :
    lookupPid q (runEvents notes s l).1.pointers = lookupPid q s.pointers := by
  induction l generalizing s with
  | nil => simp [runEvents]
  | cons e rest ih =>
      simp only [runEvents]
      rw [ih (stepEvent notes s e).1 fun x hx => h x (List.mem_cons_of_mem e hx)]
      exact stepEvent_lookup_ne notes s e q (h e (List.mem_cons_self e rest))

theorem runEvents_append (notes : List Note) (s : StaffState)
    (l1 l2 : List (Nat × StaffEvent)) :
    runEvents notes s (l1 ++ l2) =
      ((runEvents notes (runEvents notes s l1).1 l2).1,
       (runEvents notes s l1).2 ++
         (runEvents notes (runEvents notes s l1).1 l2).2) := by
  induction l1 generalizing s with
  | nil => simp [runEvents]
  | cons e rest ih =>
      simp only [List.cons_append, runEvents, List.append_eq]
      rw [ih]
      simp [List.append_assoc]

/-! Helper lemmas about the stable sort of playSequence. -/

theorem length_insertByStart (n : Note) (l : List Note) :
    (insertByStart n l).length = l.length + 1 := by
  induction l with
  | nil => rfl
  | cons m ms ih =>
      by_cases h : m.startTime ≤ n.startTime <;> simp [insertByStart, h, ih]

theorem length_sortByStart (l : List Note) :
    (sortByStart l).length = l.length := by
  have aux : ∀ (t acc : List Note),
      (t.foldl (fun a n => insertByStart n a) acc).length
        = acc.length + t.length := by
    intro t
    induction t with
    | nil => intro acc; simp
    | cons n rest ih =>
        intro acc
        rw [List.foldl_cons, ih, length_insertByStart, List.length_cons]
        omega
  simpa using aux l []

theorem sortByStart_getLast_exists (l : List Note) (h : l ≠ []) :
    ∃ lastNote, (sortByStart l).getLast? = some lastNote := by
  cases hl : (sortByStart l).getLast? with
  | some x => exact ⟨x, rfl⟩
  | none =>
      exfalso
      have hnil := List.getLast?_eq_none_iff.mp hl
      have hlen := length_sortByStart l
      rw [hnil] at hlen
      exact h (List.length_eq_zero.mp hlen.symm)

/-! Helper lemmas about the decimal digits of Nat.repr, establishing that
the generated id strings are injective in the response index. -/

theorem digitChar_toNat_sub (d : Nat) (h : d < 10) :
    (Nat.digitChar d).toNat - 48 = d := by
  interval_cases d <;> rfl

theorem digitChar_ne_dash (d : Nat) (h : d < 10) :
    Nat.digitChar d ≠ '-' := by
  interval_cases d <;> decide

theorem decodeDigits_cons (c : Char) (t : List Char) :
    decodeDigits (c :: t)
      = t.foldl (fun acc x => acc * 10 + (x.toNat - 48)) (c.toNat - 48) := by
  simp [decodeDigits]

theorem decodeDigits_foldl (l : List Char) :
    ∀ a : Nat, l.foldl (fun acc c => acc * 10 + (c.toNat - 48)) a
      = a * 10 ^ l.length + decodeDigits l := by
  induction l with
  | nil => intro a; simp [decodeDigits]
  | cons c t ih =>
      intro a
      rw [List.foldl_cons, ih, decodeDigits_cons, ih (c.toNat - 48)]
      simp only [List.length_cons, pow_succ]
      ring

theorem decode_toDigitsCore (f : Nat) :
    ∀ (n : Nat) (ds : List Char), n < 10 ^ f →
      decodeDigits (Nat.toDigitsCore 10 f n ds)
        = n * 10 ^ ds.length + decodeDigits ds := by
  induction f with
  | zero =>
      intro n ds h
      have h1 : n < 1 := by simpa using h
      have hn : n = 0 := by omega
      subst hn
      show decodeDigits ds = 0 * 10 ^ ds.length + decodeDigits ds
      simp
  | succ f ih =>
      intro n ds h
      rw [show Nat.toDigitsCore 10 (f + 1) n ds
          = if n / 10 = 0 then Nat.digitChar (n % 10) :: ds
            else Nat.toDigitsCore 10 f (n / 10)
              (Nat.digitChar (n % 10) :: ds) from rfl]
      by_cases h0 : n / 10 = 0
      · rw [if_pos h0, decodeDigits_cons, decodeDigits_foldl,
            digitChar_toNat_sub (n % 10) (Nat.mod_lt n (by norm_num))]
        have hn : n % 10 = n := by omega
        rw [hn]
      · rw [if_neg h0]
        have hlt : n / 10 < 10 ^ f := by
          have hp : n < 10 ^ f * 10 := by
            rw [← pow_succ]
            exact h
          omega
        rw [ih (n / 10) (Nat.digitChar (n % 10) :: ds) hlt,
            decodeDigits_cons, decodeDigits_foldl,
            digitChar_toNat_sub (n % 10) (Nat.mod_lt n (by norm_num))]
        have hdm : 10 * (n / 10) + n % 10 = n := Nat.div_add_mod n 10
        simp only [List.length_cons, pow_succ]
        conv_rhs => rw [← hdm]
        ring

theorem decodeDigits_repr (n : Nat) :
    decodeDigits (Nat.repr n).data = n := by
  have h : n < 10 ^ (n + 1) :=
    lt_of_lt_of_le (Nat.lt_pow_self (by norm_num) n)
      (pow_le_pow_right₀ (by norm_num) (Nat.le_succ n))
  have h2 : (Nat.repr n).data = Nat.toDigitsCore 10 (n + 1) n [] := rfl
  rw [h2, decode_toDigitsCore (n + 1) n [] h]
  simp [decodeDigits]

theorem toDigitsCore_ne_dash (f : Nat) :
    ∀ (n : Nat) (ds : List Char), (∀ c ∈ ds, c ≠ '-') →
      ∀ c ∈ Nat.toDigitsCore 10 f n ds, c ≠ '-' := by
  induction f with
  | zero => intro n ds hds c hc; exact hds c hc
  | succ f ih =>
      intro n ds hds c hc
      rw [show Nat.toDigitsCore 10 (f + 1) n ds
          = if n / 10 = 0 then Nat.digitChar (n % 10) :: ds
            else Nat.toDigitsCore 10 f (n / 10)
              (Nat.digitChar (n % 10) :: ds) from rfl] at hc
      by_cases h0 : n / 10 = 0
      · rw [if_pos h0] at hc
        rcases List.mem_cons.mp hc with h | h
        · subst h
          exact digitChar_ne_dash _ (Nat.mod_lt n (by norm_num))
        · exact hds c h
      · rw [if_neg h0] at hc
        refine ih (n / 10) _ ?_ c hc
        intro x hx
        rcases List.mem_cons.mp hx with h | h
        · subst h
          exact digitChar_ne_dash _ (Nat.mod_lt n (by norm_num))
        · exact hds x h

theorem repr_ne_dash (n : Nat) :
    ∀ c ∈ (Nat.repr n).data, c ≠ '-' := by
  have h2 : (Nat.repr n).data = Nat.toDigitsCore 10 (n + 1) n [] := rfl
  rw [h2]
  exact toDigitsCore_ne_dash (n + 1) n []
    (fun c hc => absurd hc (List.not_mem_nil c))

theorem append_dash_inj (l1 : List Char) :
    ∀ (l2 t1 t2 : List Char),
      (∀ c ∈ l1, c ≠ '-') → (∀ c ∈ l2, c ≠ '-') →
      l1 ++ '-' :: t1 = l2 ++ '-' :: t2 →
      l1 = l2 ∧ t1 = t2 := by
  induction l1 with
  | nil =>
      intro l2 t1 t2 h1 h2 h
      cases l2 with
      | nil => simpa using h
      | cons c l2r =>
          rw [List.nil_append, List.cons_append] at h
          injection h with hc ht
          exact absurd hc.symm (h2 c (List.mem_cons_self c l2r))
  | cons c l1r ih =>
      intro l2 t1 t2 h1 h2 h
      cases l2 with
      | nil =>
          rw [List.nil_append, List.cons_append] at h
          injection h with hc ht
          exact absurd hc (h1 c (List.mem_cons_self c l1r))
      | cons c2 l2r =>
          rw [List.cons_append, List.cons_append] at h
          injection h with hc ht
          obtain ⟨he, htt⟩ := ih l2r t1 t2
            (fun x hx => h1 x (List.mem_cons_of_mem c hx))
            (fun x hx => h2 x (List.mem_cons_of_mem c2 hx)) ht
          subst hc
          rw [he]
          exact ⟨rfl, htt⟩

theorem mkAiId_inj (d i j : Nat) (h : mkAiId i d = mkAiId j d) : i = j := by
  have hd := congrArg String.data h
  have hts : ∀ n : Nat, (toString n : String) = Nat.repr n := fun _ => rfl
  simp only [mkAiId, String.data_append, hts] at hd
  simp only [List.append_assoc, List.cons_append, List.nil_append,
    List.cons.injEq, true_and] at hd
  obtain ⟨hik, -⟩ := append_dash_inj (Nat.repr i).data (Nat.repr j).data
    (Nat.repr d).data (Nat.repr d).data (repr_ne_dash i) (repr_ne_dash j) hd
  have := congrArg decodeDigits hik
  rwa [decodeDigits_repr, decodeDigits_repr] at this

theorem runEvents_snoc (notes : List Note) (s : StaffState)
    (l : List (Nat × StaffEvent)) (e : Nat × StaffEvent) :
    runEvents notes s (l ++ [e]) =
      ((stepEvent notes (runEvents notes s l).1 e).1,
       (runEvents notes s l).2 ++ (stepEvent notes (runEvents notes s l).1 e).2) := by
  rw [runEvents_append]
  simp [runEvents]

theorem onPointerDown_state (notes : List Note) (t pid : Nat) (mx my : ℚ)
    (s : StaffState) (hnear : isNearExistingNote notes mx my = false) :
    onPointerDown notes t pid mx my s
      = ({ pointers := setPid pid
            ⟨quantPitch my, quantStep mx, t + HOLD_DURATION, true, true,
             false⟩ s.pointers },
         [Effect.startNote (quantPitch my), Effect.startRipple pid,
          Effect.setTimer pid (t + HOLD_DURATION)]) := by
  unfold onPointerDown
  simp [hnear, quantPitch_ne_empty my]

theorem gesture_lookup_after_mid (notes : List Note) (s : StaffState)
    (pid : Nat) (mx my : ℚ) (t0 : Nat) (mid : List (Nat × StaffEvent))
    (hnear : isNearExistingNote notes mx my = false)
    (hmid : ∀ e ∈ mid, eventPid e.2 ≠ pid) :
    lookupPid pid
        (runEvents notes s ((t0, StaffEvent.down pid mx my) :: mid)).1.pointers
      = some ⟨quantPitch my, quantStep mx, t0 + HOLD_DURATION, true, true,
              false⟩ := by
  have hstate :
      (runEvents notes s ((t0, StaffEvent.down pid mx my) :: mid)).1
        = (runEvents notes
            (stepEvent notes s (t0, StaffEvent.down pid mx my)).1 mid).1 := rfl
  rw [hstate, runEvents_lookup_ne notes pid mid _ hmid]
  have hdown : (stepEvent notes s (t0, StaffEvent.down pid mx my)).1
      = ⟨setPid pid
          ⟨quantPitch my, quantStep mx, t0 + HOLD_DURATION, true, true, false⟩
          s.pointers⟩ := by
    show (onPointerDown notes t0 pid mx my s).1 = _
    rw [onPointerDown_state notes t0 pid mx my s hnear]
  rw [hdown]
  exact lookupPid_setPid_self _ _ _

/-- C1: a gesture whose pointerdown is not blocked by the proximity test
and that sees no event of its own pointer before its placement timer
fires at t0 + HOLD_DURATION adds, at that firing, exactly one note via
onAddNote: pitch quantized from the y coordinate, startTime quantized
from the x coordinate, duration 4 and isAiGenerated false.  After the
firing the entry carries hasPlaced, so a further firing of the timer for
that pointer adds nothing: at most one note per gesture. -/
theorem C1_hold_places_exactly_one_note (notes : List Note)
    (s : StaffState) (pid : Nat) (mx my : ℚ) (t0 : Nat)
    (mid : List (Nat × StaffEvent))
    (hnear : isNearExistingNote notes mx my = false)
    (hmid : ∀ e ∈ mid, eventPid e.2 ≠ pid) :
    (runEvents notes s ((t0, StaffEvent.down pid mx my) ::
        (mid ++ [(t0 + HOLD_DURATION, StaffEvent.fire pid)]))).2
      = (runEvents notes s ((t0, StaffEvent.down pid mx my) :: mid)).2
        ++ [Effect.clearRipple pid, Effect.stopNote (quantPitch my),
            Effect.addNote ⟨mkUserId (t0 + HOLD_DURATION) pid, quantPitch my,
              (quantStep mx : ℚ), 4, false⟩]
    ∧ lookupPid pid (runEvents notes s ((t0, StaffEvent.down pid mx my) ::
        (mid ++ [(t0 + HOLD_DURATION, StaffEvent.fire pid)]))).1.pointers
      = some ⟨quantPitch my, quantStep mx, t0 + HOLD_DURATION, false, false,
              true⟩
    ∧ ∀ t2, onTimerFire t2 pid (runEvents notes s
        ((t0, StaffEvent.down pid mx my) ::
          (mid ++ [(t0 + HOLD_DURATION, StaffEvent.fire pid)]))).1
      = ((runEvents notes s ((t0, StaffEvent.down pid mx my) ::
          (mid ++ [(t0 + HOLD_DURATION, StaffEvent.fire pid)]))).1, []) := by
  have hform : (t0, StaffEvent.down pid mx my) ::
      (mid ++ [(t0 + HOLD_DURATION, StaffEvent.fire pid)])
      = ((t0, StaffEvent.down pid mx my) :: mid)
        ++ [(t0 + HOLD_DURATION, StaffEvent.fire pid)] := by
    simp
  have hlook := gesture_lookup_after_mid notes s pid mx my t0 mid hnear hmid
  have hfire : stepEvent notes
      (runEvents notes s ((t0, StaffEvent.down pid mx my) :: mid)).1
      (t0 + HOLD_DURATION, StaffEvent.fire pid)
      = ({ pointers := setPid pid
            ⟨quantPitch my, quantStep mx, t0 + HOLD_DURATION, false, false,
             true⟩
            (runEvents notes s
              ((t0, StaffEvent.down pid mx my) :: mid)).1.pointers },
         [Effect.clearRipple pid, Effect.stopNote (quantPitch my),
          Effect.addNote ⟨mkUserId (t0 + HOLD_DURATION) pid, quantPitch my,
            (quantStep mx : ℚ), 4, false⟩]) := by
    show onTimerFire (t0 + HOLD_DURATION) pid _ = _
    unfold onTimerFire
    rw [hlook]
    rfl
  have hrun := runEvents_snoc notes s
    ((t0, StaffEvent.down pid mx my) :: mid)
    (t0 + HOLD_DURATION, StaffEvent.fire pid)
  rw [hfire] at hrun
  refine ⟨?_, ?_, ?_⟩
  · rw [hform, hrun]
  · rw [hform, hrun]
    exact lookupPid_setPid_self _ _ _
  · intro t2
    rw [hform, hrun]
    unfold onTimerFire
    rw [lookupPid_setPid_self]
    rfl

/-- Witness for C1: one pointer pressed at the origin at time 0 with no
other event places exactly the note A5 at step 0 with duration 4 when the
timer fires at 2500 ms. -/
theorem C1_witness :
    (runEvents [] ⟨[]⟩ [(0, StaffEvent.down 1 0 0),
        (2500, StaffEvent.fire 1)]).2
      = [Effect.startNote "A5", Effect.startRipple 1, Effect.setTimer 1 2500,
         Effect.clearRipple 1, Effect.stopNote "A5",
         Effect.addNote ⟨"user-2500-1", "A5", 0, 4, false⟩]
    ∧ lookupPid 1 (runEvents [] ⟨[]⟩ [(0, StaffEvent.down 1 0 0),
        (2500, StaffEvent.fire 1)]).1.pointers
      = some ⟨"A5", 0, 2500, false, false, true⟩ := by
  have h := C1_hold_places_exactly_one_note [] ⟨[]⟩ 1 0 0 0 []
    (by decide) (by intro e he; exact absurd he (List.not_mem_nil e))
  obtain ⟨ha, hb, -⟩ := h
  have e1 : ((0 : Nat), StaffEvent.down 1 (0 : ℚ) (0 : ℚ)) ::
      ([] ++ [((0 : Nat) + HOLD_DURATION, StaffEvent.fire 1)])
      = [(0, StaffEvent.down 1 0 0), (2500, StaffEvent.fire 1)] := rfl
  rw [e1] at ha hb
  have h1 : quantPitch 0 = "A5" := by with_unfolding_all decide
  have h2 : quantStep 0 = 0 := by with_unfolding_all decide
  have hpre : runEvents [] ⟨[]⟩ [(0, StaffEvent.down 1 0 0)]
      = ((onPointerDown [] 0 1 0 0 ⟨[]⟩).1,
         (onPointerDown [] 0 1 0 0 ⟨[]⟩).2 ++ []) := rfl
  have hd := onPointerDown_state [] 0 1 0 0 ⟨[]⟩ (by decide)
  constructor
  · rw [ha, hpre, hd, h1, h2]
    have h3 : mkUserId (0 + HOLD_DURATION) 1 = "user-2500-1" := by decide
    rw [h3, Int.cast_zero]
    rfl
  · rw [hb, h1, h2]
    rfl

/-- C4: a gesture whose pointerdown is not blocked by the proximity test
and whose pointer sees a pointerup or pointercancel before the placement
timer fires never adds a note: the release clears the placement timer and
the ripple interval, stops the preview note, removes the entry from
activePointers, and a stale timer firing afterwards finds no entry and
does nothing. -/
theorem C4_release_before_timer_cancels (notes : List Note)
    (s : StaffState) (pid : Nat) (mx my : ℚ) (t0 t1 : Nat)
    (mid : List (Nat × StaffEvent)) (ev : StaffEvent)
    (hnear : isNearExistingNote notes mx my = false)
    (hmid : ∀ e ∈ mid, eventPid e.2 ≠ pid)
    (hev : ev = StaffEvent.up pid ∨ ev = StaffEvent.cancel pid)
    (_ht : t1 < t0 + HOLD_DURATION) :
    (runEvents notes s ((t0, StaffEvent.down pid mx my) ::
        (mid ++ [(t1, ev)]))).2
      = (runEvents notes s ((t0, StaffEvent.down pid mx my) :: mid)).2
        ++ [Effect.clearTimer pid, Effect.clearRipple pid,
            Effect.stopNote (quantPitch my)]
    ∧ lookupPid pid (runEvents notes s ((t0, StaffEvent.down pid mx my) ::
        (mid ++ [(t1, ev)]))).1.pointers = none
    ∧ ∀ t2, onTimerFire t2 pid (runEvents notes s
        ((t0, StaffEvent.down pid mx my) :: (mid ++ [(t1, ev)]))).1
      = ((runEvents notes s ((t0, StaffEvent.down pid mx my) ::
          (mid ++ [(t1, ev)]))).1, []) := by
  have hform : (t0, StaffEvent.down pid mx my) :: (mid ++ [(t1, ev)])
      = ((t0, StaffEvent.down pid mx my) :: mid) ++ [(t1, ev)] := by
    simp
  have hlook := gesture_lookup_after_mid notes s pid mx my t0 mid hnear hmid
  have hup : stepEvent notes
      (runEvents notes s ((t0, StaffEvent.down pid mx my) :: mid)).1 (t1, ev)
      = ({ pointers := erasePid pid
            (runEvents notes s
              ((t0, StaffEvent.down pid mx my) :: mid)).1.pointers },
         [Effect.clearTimer pid, Effect.clearRipple pid,
          Effect.stopNote (quantPitch my)]) := by
    rcases hev with hev | hev <;> subst hev <;>
      · show onPointerUp pid _ = _
        unfold onPointerUp
        rw [hlook]
  have hrun := runEvents_snoc notes s
    ((t0, StaffEvent.down pid mx my) :: mid) (t1, ev)
  rw [hup] at hrun
  refine ⟨?_, ?_, ?_⟩
  · rw [hform, hrun]
  · rw [hform, hrun]
    exact lookupPid_erasePid_self _ _
  · intro t2
    rw [hform, hrun]
    unfold onTimerFire
    rw [lookupPid_erasePid_self]

/-- Witness for C4: a press at the origin released after 100 ms emits
only the preview effects and their cleanup, never an onAddNote, and
leaves no active pointer. -/
theorem C4_witness :
    (runEvents [] ⟨[]⟩ [(0, StaffEvent.down 1 0 0),
        (100, StaffEvent.up 1)]).2
      = [Effect.startNote "A5", Effect.startRipple 1, Effect.setTimer 1 2500,
         Effect.clearTimer 1, Effect.clearRipple 1, Effect.stopNote "A5"]
    ∧ lookupPid 1 (runEvents [] ⟨[]⟩ [(0, StaffEvent.down 1 0 0),
        (100, StaffEvent.up 1)]).1.pointers = none := by
  have h := C4_release_before_timer_cancels [] ⟨[]⟩ 1 0 0 0 100 []
    (StaffEvent.up 1)
    (by decide) (by intro e he; exact absurd he (List.not_mem_nil e))
    (Or.inl rfl) (by decide)
  obtain ⟨ha, hb, -⟩ := h
  have e1 : ((0 : Nat), StaffEvent.down 1 (0 : ℚ) (0 : ℚ)) ::
      ([] ++ [((100 : Nat), StaffEvent.up 1)])
      = [(0, StaffEvent.down 1 0 0), (100, StaffEvent.up 1)] := rfl
  rw [e1] at ha hb
  have h1 : quantPitch 0 = "A5" := by with_unfolding_all decide
  have hpre : runEvents [] ⟨[]⟩ [(0, StaffEvent.down 1 0 0)]
      = ((onPointerDown [] 0 1 0 0 ⟨[]⟩).1,
         (onPointerDown [] 0 1 0 0 ⟨[]⟩).2 ++ []) := rfl
  have hd := onPointerDown_state [] 0 1 0 0 ⟨[]⟩ (by decide)
  refine ⟨?_, hb⟩
  rw [ha, hpre, hd, h1]
  rfl

/-- C5: on every pointerdown the pitch index computed from the y
coordinate is clamped into the bounds of PITCH_ORDER, the selected pitch
is one of its 22 pitches, it is never the empty default that the falsy
guard on pitch tests, and consequently a pointerdown that is not blocked
by the proximity test always records its map entry: the early-return
error branch on a missing pitch is unreachable. -/
theorem C5_pitch_clamped_in_bounds (my : ℚ) :
    pitchIndexFromY my < PITCH_ORDER.length
    ∧ quantPitch my ∈ PITCH_ORDER
    ∧ quantPitch my ≠ ""
    ∧ ∀ notes t pid mx s, isNearExistingNote notes mx my = false →
        lookupPid pid (onPointerDown notes t pid mx my s).1.pointers
          = some ⟨quantPitch my, quantStep mx, t + HOLD_DURATION,
                  true, true, false⟩ := by
  refine ⟨pitchIndexFromY_lt my, quantPitch_mem my, quantPitch_ne_empty my, ?_⟩
  intro notes t pid mx s hnear
  unfold onPointerDown
  simp [hnear, quantPitch_ne_empty my, lookupPid_setPid_self]

/-- Witness for C5 at a concrete press: y = 0 selects the top pitch A5
and the entry is recorded. -/
theorem C5_witness :
    pitchIndexFromY 0 < PITCH_ORDER.length
    ∧ lookupPid 1 (onPointerDown [] 0 1 0 0 ⟨[]⟩).1.pointers
        = some ⟨"A5", 0, 2500, true, true, false⟩ := by
  refine ⟨(C5_pitch_clamped_in_bounds 0).1, ?_⟩
  have h := (C5_pitch_clamped_in_bounds 0).2.2.2 [] 0 1 0 ⟨[]⟩ (by decide)
  rw [h]
  have h1 : quantPitch 0 = "A5" := by with_unfolding_all decide
  have h2 : quantStep 0 = 0 := by with_unfolding_all decide
  rw [h1, h2]
  rfl

/-- C6: handleGenerate is atomic in the notes list.  With fewer than 3
notes it only sets the message, does not call the AI service and leaves
the notes unchanged; when the AI call throws, the notes are unchanged and
playback is stopped; and the notes list differs from the input only when
the AI call returned successfully, in which case it becomes exactly the
returned list. -/
theorem C6_handleGenerate_atomic (s : AppState)
    (r : Except Unit (List Note)) :
    (s.notes.length < 3 →
      handleGenerate s r
        = ({ s with message := "Please place at least 3 notes." }, false))
    ∧ (s.isGenerating = false → 3 ≤ s.notes.length →
        r = Except.error () →
        (handleGenerate s r).1.notes = s.notes
        ∧ (handleGenerate s r).1.playing = false
        ∧ (handleGenerate s r).2 = true)
    ∧ ((handleGenerate s r).1.notes ≠ s.notes →
        ∃ ns, r = Except.ok ns ∧ (handleGenerate s r).1.notes = ns) := by
  refine ⟨?_, ?_, ?_⟩
  · intro h
    simp [handleGenerate, h]
  · intro hg h3 hr
    subst hr
    have h : ¬ s.notes.length < 3 := by omega
    simp [handleGenerate, h, hg]
  · intro hne
    by_cases h3 : s.notes.length < 3
    · exact absurd (by simp [handleGenerate, h3]) hne
    · by_cases hg : s.isGenerating
      · exact absurd (by simp [handleGenerate, h3, hg]) hne
      · cases r with
        | ok ns => exact ⟨ns, rfl, by simp [handleGenerate, h3, hg]⟩
        | error e => exact absurd (by simp [handleGenerate, h3, hg]) hne

/-- Witness for C6 on a concrete state with no notes: the guard branch
fires, only the message changes, and the AI service is not called. -/
theorem C6_witness :
    handleGenerate ⟨[], "m", false, false⟩ (Except.error ())
      = (⟨[], "Please place at least 3 notes.", false, false⟩, false) := by
  have h := (C6_handleGenerate_atomic ⟨[], "m", false, false⟩
    (Except.error ())).1 (by decide)
  simpa using h

/-- C7: the shared pointerup / pointercancel handler cancels and deletes
only the activePointers entry keyed by the pointerId of the event; the
entry of every other active pointer is unchanged, so concurrent
multi-touch gestures stay independent. -/
theorem C7_pointerup_touches_only_its_pointer (notes : List Note)
    (s : StaffState) (t pid q : Nat) (ev : StaffEvent) (h : q ≠ pid)
    (hev : ev = StaffEvent.up pid ∨ ev = StaffEvent.cancel pid) :
    lookupPid q (stepEvent notes s (t, ev)).1.pointers
      = lookupPid q s.pointers
    ∧ lookupPid pid (stepEvent notes s (t, ev)).1.pointers = none := by
  have main : ∀ u : StaffState × List Effect, u = onPointerUp pid s →
      lookupPid q u.1.pointers = lookupPid q s.pointers
      ∧ lookupPid pid u.1.pointers = none := by
    intro u hu
    subst hu
    unfold onPointerUp
    cases hl : lookupPid pid s.pointers <;>
      simp [hl, lookupPid_erasePid_ne pid q _ h, lookupPid_erasePid_self]
  rcases hev with hev | hev <;> subst hev <;> exact main _ rfl

/-- Witness for C7: with two active pointers, lifting pointer 1 leaves
the entry of pointer 2 in place and removes the entry of pointer 1. -/
theorem C7_witness :
    lookupPid 2 (stepEvent []
        ⟨[(1, ⟨"C4", 0, 2500, true, true, false⟩),
          (2, ⟨"E4", 4, 2600, true, true, false⟩)]⟩
        (100, StaffEvent.up 1)).1.pointers
      = some ⟨"E4", 4, 2600, true, true, false⟩
    ∧ lookupPid 1 (stepEvent []
        ⟨[(1, ⟨"C4", 0, 2500, true, true, false⟩),
          (2, ⟨"E4", 4, 2600, true, true, false⟩)]⟩
        (100, StaffEvent.up 1)).1.pointers = none := by
  have h := C7_pointerup_touches_only_its_pointer []
    ⟨[(1, ⟨"C4", 0, 2500, true, true, false⟩),
      (2, ⟨"E4", 4, 2600, true, true, false⟩)]⟩
    100 1 2 (StaffEvent.up 1) (by decide) (Or.inl rfl)
  refine ⟨?_, h.2⟩
  rw [h.1]
  decide

/-- C8: a pointerdown whose position is within EXCLUSION_RADIUS of the
rendered position of some existing note returns before any effect: no
preview sound, no ripple, no timer, no activePointers entry, and with no
entry recorded a placement timer for that pointer can never add a note.
The Euclidean distance comparison of the code is stated on squares, which
is equivalent for nonnegative quantities. -/
theorem C8_exclusion_radius_blocks (notes : List Note) (s : StaffState)
    (t pid : Nat) (mx my : ℚ)
    (h : ∃ n ∈ notes, ∃ ny, yScaleQ n.pitch = some ny ∧
          (mx - stepWidth * n.startTime) ^ 2 + (my - ny) ^ 2
            < EXCLUSION_RADIUS ^ 2) :
    onPointerDown notes t pid mx my s = (s, [])
    ∧ (lookupPid pid s.pointers = none →
        ∀ t2, onTimerFire t2 pid s = (s, [])) := by
  have hnear : isNearExistingNote notes mx my = true := by
    obtain ⟨n, hn, ny, hny, hd⟩ := h
    unfold isNearExistingNote
    rw [List.any_eq_true]
    refine ⟨n, hn, ?_⟩
    simp only [hny]
    exact decide_eq_true hd
  constructor
  · unfold onPointerDown
    simp [hnear]
  · intro hp t2
    unfold onTimerFire
    simp [hp]

/-- Witness for C8: pressing exactly on the rendered position of an
existing note changes nothing. -/
theorem C8_witness :
    onPointerDown [⟨"n1", "A5", 0, 4, false⟩] 0 1 0 (63 / 22) ⟨[]⟩
      = (⟨[]⟩, []) := by
  have h := C8_exclusion_radius_blocks [⟨"n1", "A5", 0, 4, false⟩] ⟨[]⟩ 0 1 0
    (63 / 22)
    ⟨⟨"n1", "A5", 0, 4, false⟩, by simp, 63 / 22,
     by with_unfolding_all decide, by with_unfolding_all decide⟩
  exact h.1

/-- C9: appending a note with handleAddNote and then applying handleUndo
restores the original list, handleUndo on the empty list yields the empty
list, and undo removes exactly the last-appended note. -/
theorem C9_add_then_undo (l : List Note) (n : Note) :
    handleUndo (handleAddNote l n) = l
    ∧ handleUndo ([] : List Note) = []
    ∧ handleAddNote l n = l ++ [n] := by
  refine ⟨?_, rfl, rfl⟩
  simp [handleAddNote, handleUndo]

/-- C2 as stated is false on the code: the completion callback is
computed from the note with the greatest startTime (the last element of
the startTime-sorted copy), not from the note that ends last.  With one
note starting at step 0 lasting 100 steps and one note starting at step
10 lasting 1 step, at 120 bpm (a 16th note is 1/8 s), the callback is
scheduled at transport time 19/8 s while the first scheduled note ends at
1/2 + 25/2 = 13 s, well after the callback. -/
theorem C2_counterexample :
    (playSequence [⟨"a", "C4", 0, 100, false⟩, ⟨"b", "D4", 10, 1, false⟩]
        0 (1 / 8)).1
      = [⟨"C4", 1 / 2, 25 / 2⟩, ⟨"D4", 7 / 4, 1 / 8⟩]
    ∧ (playSequence [⟨"a", "C4", 0, 100, false⟩, ⟨"b", "D4", 10, 1, false⟩]
        0 (1 / 8)).2 = some (19 / 8)
    ∧ (19 / 8 : ℚ) < 1 / 2 + 25 / 2 := by
  refine ⟨?_, ?_, ?_⟩ <;> with_unfolding_all decide

/-- C2 amended: for every non-empty list of notes, playSequence schedules
every note of the list at absolute time now + 0.5 + startTime * s16 with
length duration * s16, and schedules the completion callback at transport
time (lastNote.startTime + lastNote.duration) * s16 + 0.5 + 0.5, where
lastNote is the final element of the startTime-sorted copy: 0.5 s after
the end of the last-starting note, but not necessarily after the end of
every note. -/
theorem C2_amended_schedule (notes : List Note) (now s16 : ℚ)
    (h : notes ≠ []) :
    (playSequence notes now s16).1
      = notes.map (fun n =>
          ⟨n.pitch, now + 1 / 2 + n.startTime * s16, n.duration * s16⟩)
    ∧ ∃ lastNote, (sortByStart notes).getLast? = some lastNote
        ∧ (playSequence notes now s16).2
          = some ((lastNote.startTime + lastNote.duration) * s16
              + 1 / 2 + 1 / 2) := by
  obtain ⟨lastNote, hl⟩ := sortByStart_getLast_exists notes h
  unfold playSequence
  rw [hl]
  exact ⟨rfl, lastNote, rfl, rfl⟩

/-- Witness for the amended C2 on a single quarter note at step 0: it is
scheduled at 1/2 s for 1/2 s and the completion callback falls at
transport time 3/2 s. -/
theorem C2_witness :
    (playSequence [⟨"x", "C4", 0, 4, false⟩] 0 (1 / 8)).1
      = [⟨"C4", 1 / 2, 1 / 2⟩]
    ∧ (playSequence [⟨"x", "C4", 0, 4, false⟩] 0 (1 / 8)).2
      = some (3 / 2) := by
  have h := C2_amended_schedule [⟨"x", "C4", 0, 4, false⟩] 0 (1 / 8)
    (by simp)
  refine ⟨?_, ?_⟩
  · rw [h.1]
    with_unfolding_all decide
  · obtain ⟨ln, hl, hc⟩ := h.2
    have hsort : (sortByStart [⟨"x", "C4", 0, 4, false⟩]).getLast?
        = some ⟨"x", "C4", 0, 4, false⟩ := by
      with_unfolding_all decide
    rw [hsort] at hl
    obtain rfl := Option.some.inj hl
    rw [hc]
    with_unfolding_all decide

/-- C3: completeMelody returns one note per item of the AI response, in
response order, with the fields of the item copied, a freshly built id
(unique within the returned list, made of the item index and the call
timestamp), and isAiGenerated set exactly when no input note shares the
pitch with a startTime within strictly less than 1 step. -/
theorem C3_completeMelody_marks_ai (currentNotes : List Note)
    (rawNotes : List RawNote) (d : Nat) :
    (completeMelody currentNotes rawNotes d).length = rawNotes.length
    ∧ (∀ (i : Nat) (rn : RawNote), rawNotes[i]? = some rn →
        (completeMelody currentNotes rawNotes d)[i]?
          = some (⟨mkAiId i d, rn.pitch, rn.startTime, rn.duration,
                  !isOriginalMatch currentNotes rn⟩ : Note))
    ∧ (∀ rn : RawNote, isOriginalMatch currentNotes rn = true
        ↔ ∃ cn ∈ currentNotes, cn.pitch = rn.pitch
            ∧ |cn.startTime - rn.startTime| < 1)
    ∧ ((completeMelody currentNotes rawNotes d).map Note.id).Nodup := by
  refine ⟨?_, ?_, ?_, ?_⟩
  · simp [completeMelody]
  · intro i rn h
    simp [completeMelody, List.getElem?_map, List.getElem?_enum, h]
  · intro rn
    simp [isOriginalMatch, List.any_eq_true, Bool.and_eq_true, beq_iff_eq,
      decide_eq_true_eq]
  · have hform : (completeMelody currentNotes rawNotes d).map Note.id
        = (List.range rawNotes.length).map (fun i => mkAiId i d) := by
      simp only [completeMelody, List.map_map]
      rw [show ((Note.id ∘ fun p : Nat × RawNote =>
            (⟨mkAiId p.1 d, p.2.pitch, p.2.startTime, p.2.duration,
              !isOriginalMatch currentNotes p.2⟩ : Note)))
          = (fun i => mkAiId i d) ∘ Prod.fst from rfl]
      rw [← List.map_map, List.enum_map_fst]
    rw [hform]
    exact List.Nodup.map (fun a b hab => mkAiId_inj d a b hab)
      (List.nodup_range _)

/-- Witness for C3 on a concrete call: an input note C4 at step 0, and a
response with C4 at step 1/2 (a timing polish of the original, within 1
step, kept unmarked) and E4 at step 0 (a harmonization, marked AI
generated), with ids built from the indices and the timestamp 7. -/
theorem C3_witness :
    (completeMelody [⟨"u", "C4", 0, 4, false⟩]
        [⟨"C4", 1 / 2, 4⟩, ⟨"E4", 0, 4⟩] 7)[0]?
      = some ⟨"ai-0-7", "C4", 1 / 2, 4, false⟩
    ∧ (completeMelody [⟨"u", "C4", 0, 4, false⟩]
        [⟨"C4", 1 / 2, 4⟩, ⟨"E4", 0, 4⟩] 7)[1]?
      = some ⟨"ai-1-7", "E4", 0, 4, true⟩ := by
  obtain ⟨-, hidx, -, -⟩ := C3_completeMelody_marks_ai
    [⟨"u", "C4", 0, 4, false⟩] [⟨"C4", 1 / 2, 4⟩, ⟨"E4", 0, 4⟩] 7
  constructor
  · rw [hidx 0 ⟨"C4", 1 / 2, 4⟩ rfl]
    with_unfolding_all decide
  · rw [hidx 1 ⟨"E4", 0, 4⟩ rfl]
    with_unfolding_all decide
